import Mathlib

/-!
Shallow embedding of the `splatlog` verbosity/role level-resolution engine and
the priority-handler-aware effective-level and dispatch computations.

Python integers standing for log levels are modelled as `Int` (the library
accepts any integer as a threshold; `NOTSET = 0` plays the role of the falsy
sentinel).  Verbosities are modelled as `Nat`: `asVerbosity` in
`splatlog/typings.py` rejects anything that is not a non-negative integer
strictly below `sys.maxsize`, so that bound appears as a hypothesis where the
source would have raised.  Level names have already been resolved to their
integer values (`getLevelValue` in the source maps a name or integer from the
canonical table to its integer value; all claims quantify over integer
levels, so values enter the model already resolved).
-/

namespace Splatlog

/-- Model of `sys.maxsize` on a 64-bit CPython build, used by
`VerbosityLevelResolver.computeVerbosityRanges` as the open upper cap. -/
def maxsize : Nat := 2 ^ 63 - 1

/-- Verbosity counts (`splatlog/typings.py`: non-negative, below `maxsize`). -/
abbrev Verbosity := Nat

/-- Integer log-level values. -/
abbrev LevelValue := Int

/-- A `(verbosity, level)` pair (`VerbosityLevel` in the source). -/
abbrev VerbosityLevel := Verbosity × LevelValue

/-- A half-open verbosity range `[lo, hi)` paired with the level it resolves
to (`VerbosityRange` in the source; `range(lo, hi)` in Python). -/
abbrev VerbosityRange := (Nat × Nat) × LevelValue

/-- Membership `v in range(lo, hi)` for a Python `range` with step 1. -/
def rangeContains (r : Nat × Nat) (v : Nat) : Bool :=
  decide (r.1 ≤ v) && decide (v < r.2)

/-- Comparison key used by `levels.sort(key=lambda vl: vl[0])`: compare the
verbosity components. -/
def vlLE (p q : VerbosityLevel) : Prop := p.1 ≤ q.1

instance : DecidableRel vlLE := fun p q => inferInstanceAs (Decidable (p.1 ≤ q.1))

instance : IsTotal VerbosityLevel vlLE := ⟨fun p q => Nat.le_total p.1 q.1⟩

instance : IsTrans VerbosityLevel vlLE := ⟨fun _ _ _ h1 h2 => Nat.le_trans h1 h2⟩

/-- Python's `list.sort` is a stable comparison sort; insertion sort with a
non-strict key comparison is stable, so it is a faithful model. -/
def sortVL (l : List VerbosityLevel) : List VerbosityLevel :=
  List.insertionSort vlLE l

/-- Model of `itertools.pairwise`: consecutive overlapping pairs of a list. -/
def pairwiseL {α : Type} : List α → List (α × α)
  | [] => []
  | [_] => []
  | a :: b :: rest => (a, b) :: pairwiseL (b :: rest)

/-- The generator expression `((range(v_1, v_2), l_1) for (v_1, l_1), (v_2, _)
in pairwise(levels))`: map sort-adjacent pairs to half-open ranges carrying
the lower pair's level. -/
def rangesOf (s : List VerbosityLevel) : List VerbosityRange :=
  (pairwiseL s).map (fun p => ((p.1.1, p.2.1), p.1.2))

/-- Embedding of `VerbosityLevelResolver.computeVerbosityRanges`
(`splatlog/verbosity/verbosity_level_resolver.py` lines 15-36): append the
`(sys.maxsize, NOTSET)` upper cap, sort ascending by verbosity, and build the
ranges of sort-adjacent pairs. -/
def computeVerbosityRanges (verbosityLevels : List VerbosityLevel) :
    List VerbosityRange :=
  rangesOf (sortVL (verbosityLevels ++ [(maxsize, 0)]))

/-- Embedding of `VerbosityLevelResolver.getLevel`
(`splatlog/verbosity/verbosity_level_resolver.py` lines 65-72): return the
level of the first range containing the verbosity, else `None`. -/
def getLevel (ranges : List VerbosityRange) (v : Verbosity) : Option LevelValue :=
  match ranges with
  | [] => none
  | (rng, lvl) :: rest => if rangeContains rng v then some lvl else getLevel rest v

/-! ## Roles (`splatlog/roles.py`) -/

/-- Constant `DEFAULT_ROLE_LEVEL = WARNING` (`splatlog/roles.py` line 28). -/
def DEFAULT_ROLE_LEVEL : LevelValue := 30

/-- The `Role` dataclass (`splatlog/roles.py` lines 36-55).  Name validation
(`__post_init__` rejecting `""` and the wildcard `"*"`) is not needed by any
claim and is omitted; names are lists of characters. -/
structure Role where
  name : List Char
  verbosity_levels : List VerbosityLevel
  default_level : LevelValue := DEFAULT_ROLE_LEVEL
  description : Option (List Char) := none
  is_builtin : Bool := false
deriving DecidableEq

/-- Embedding of `Role.verbosity_ranges` (`splatlog/roles.py` lines 57-67): the same
sentinel-append / sort / pairwise computation as
`VerbosityLevelResolver.computeVerbosityRanges`. -/
def Role.verbosity_ranges (r : Role) : List VerbosityRange :=
  rangesOf (sortVL (r.verbosity_levels ++ [(maxsize, 0)]))

/-- The scan loop inside `Role.get_level` (`splatlog/roles.py` lines 72-75):
return the level of the first range containing the verbosity, else the
default level. -/
def roleScan (ranges : List VerbosityRange) (v : Verbosity) (dflt : LevelValue) :
    LevelValue :=
  match ranges with
  | [] => dflt
  | (rng, lvl) :: rest => if rangeContains rng v then lvl else roleScan rest v dflt

/-- Embedding of `Role.get_level` (`splatlog/roles.py` lines 69-75). -/
def Role.get_level (r : Role) : Option Verbosity → LevelValue
  | none => r.default_level
  | some v => roleScan r.verbosity_ranges v r.default_level

/-- Embedding of `APP_ROLE` (`splatlog/roles.py` lines 78-86): verbosity 0 resolves to
`INFO` (20) and verbosity 1 to `DEBUG` (10); the default level is the
dataclass default `DEFAULT_ROLE_LEVEL = WARNING` (30). -/
def APP_ROLE : Role :=
  { name := "app".data
    verbosity_levels := [(0, 20), (1, 10)]
    is_builtin := true }

/-! ## Log records, handlers and the logger chain
(`splatlog/splat_logger.py`, `splatlog/handler/priority_handler.py`)

A `SplatLogger`'s ancestor chain (`self`, `self.parent`, ... up to the root,
whose own `parent` is `None`) is embedded as a list of frames, the logger
itself first.  Each frame carries the data `iterHandlers`,
`getEffectiveLevel` and `callHandlers` read from a logger node: its own
`level`, its `propagate` flag and its attached handlers. -/

/-- The slice of `logging.LogRecord` the dispatch logic reads. -/
structure LogRecord where
  name : List Char
  levelno : LevelValue

/-- The slice of `logging.Handler` the dispatch logic reads: the configured
level, whether the handler is a `PriorityHandler`
(`isinstance(handler, PriorityHandler)`), and the attached filters
(`logging.Filterer`); a filter is a predicate on records. -/
structure Handler where
  level : LevelValue
  isPriority : Bool
  filters : List (LogRecord → Bool)

/-- One logger node of the ancestor chain. -/
structure Frame where
  level : LevelValue
  propagate : Bool
  handlers : List Handler

/-- A logger with its ancestor chain, the logger itself first. -/
abbrev Chain := List Frame

/-- Model of `logging.Logger.getEffectiveLevel` (the standard-library method reached by
`super().getEffectiveLevel()`): walk up from the logger and return the first
non-falsy (non-zero) `level`, else `NOTSET` (0). -/
def stdGetEffectiveLevel : Chain → LevelValue
  | [] => 0
  | f :: rest => if f.level ≠ 0 then f.level else stdGetEffectiveLevel rest

/-- Embedding of `SplatLogger.iterHandlers` (`splatlog/splat_logger.py` lines 101-108):
yield the current logger's handlers, then continue to the parent only while
`propagate` is true. -/
def iterHandlers : Chain → List Handler
  | [] => []
  | f :: rest => f.handlers ++ (if f.propagate then iterHandlers rest else [])

/-- The levels the generator inside `SplatLogger.getPriorityHandlerLevel`
produces: levels of `PriorityHandler` instances in `iterHandlers` whose level
is not `NOTSET`. -/
def priorityLevels (c : Chain) : List LevelValue :=
  ((iterHandlers c).filter (fun h => h.isPriority && h.level != 0)).map
    Handler.level

/-- Python's `min(iterable)` over a non-empty list, `none` when empty. -/
def listMin : List LevelValue → Option LevelValue
  | [] => none
  | x :: xs => some (match listMin xs with | none => x | some m => min x m)

/-- Embedding of `SplatLogger.getPriorityHandlerLevel` (`splatlog/splat_logger.py` lines
110-121): `min(..., default=NOTSET)`. -/
def getPriorityHandlerLevel (c : Chain) : LevelValue :=
  (listMin (priorityLevels c)).getD 0

/-- Embedding of `SplatLogger.getEffectiveLevel` (`splatlog/splat_logger.py` lines
123-141): minimum of the standard effective level and the priority-handler
level when both are truthy (non-zero), else their maximum. -/
def getEffectiveLevel (c : Chain) : LevelValue :=
  if stdGetEffectiveLevel c ≠ 0 ∧ getPriorityHandlerLevel c ≠ 0 then
    min (stdGetEffectiveLevel c) (getPriorityHandlerLevel c)
  else
    max (stdGetEffectiveLevel c) (getPriorityHandlerLevel c)

/-- Embedding of `SplatLogger.getEffectiveHandlerLevel` (`splatlog/splat_logger.py` lines
166-267, body at 265-267). -/
def getEffectiveHandlerLevel (c : Chain) (h : Handler) : LevelValue :=
  if h.isPriority then h.level else max (stdGetEffectiveLevel c) h.level

/-- Model of `logging.Filterer.filter` on a handler: a record passes when every
attached filter accepts it; `logging.Handler.handle` emits the record exactly
when this holds. -/
def filtersPass (h : Handler) (r : LogRecord) : Bool :=
  h.filters.all (fun f => f r)

/-- The process-wide state `SplatLogger.callHandlers` reads besides the
chain: `logging.lastResort`, `logging.raiseExceptions`, and the manager's
`emittedNoHandlerWarning` flag. -/
structure DispatchGlobals where
  lastResort : Option Handler
  raiseExceptions : Bool
  emittedNoHandlerWarning : Bool

/-- The observable effects of one `SplatLogger.callHandlers` call:
the handlers whose `emit` ran (`handle` was called and their filters passed),
whether `logging.lastResort.handle` was called, whether the no-handler notice
was written to `sys.stderr`, and the manager's `emittedNoHandlerWarning` flag
afterwards. -/
structure CallHandlersResult where
  delivered : List Handler
  lastResortDelivered : Bool
  warningWritten : Bool
  emittedNoHandlerWarning : Bool

/-- The `if found == 0:` tail of `SplatLogger.callHandlers`
(`splatlog/splat_logger.py` lines 287-299), producing
`(lastResortDelivered, warningWritten, emittedNoHandlerWarning)`. -/
def noHandlerFallback (found : Nat) (r : LogRecord) (g : DispatchGlobals) :
    Bool × Bool × Bool :=
  if found = 0 then
    match g.lastResort with
    | some lr => (decide (r.levelno ≥ lr.level), false, g.emittedNoHandlerWarning)
    | none =>
      if g.raiseExceptions && !g.emittedNoHandlerWarning then (false, true, true)
      else (false, false, g.emittedNoHandlerWarning)
  else (false, false, g.emittedNoHandlerWarning)

/-- Embedding of `SplatLogger.callHandlers` (`splatlog/splat_logger.py` lines 269-299).
The loop visits every handler of `iterHandlers`, counts it in `found`, and
calls `handler.handle(record)` when `record.levelno` reaches
`getEffectiveHandlerLevel`; `handle` emits when the handler's filters pass.
The `found == 0` fallback is `noHandlerFallback`. -/
def callHandlers (c : Chain) (r : LogRecord) (g : DispatchGlobals) :
    CallHandlersResult :=
  let hs := iterHandlers c
  let delivered := hs.filter
    (fun h => decide (r.levelno ≥ getEffectiveHandlerLevel c h) && filtersPass h r)
  let fb := noHandlerFallback hs.length r g
  { delivered := delivered
    lastResortDelivered := fb.1
    warningWritten := fb.2.1
    emittedNoHandlerWarning := fb.2.2 }

/-! ## VerbosityLevelsFilter (`splatlog/verbosity/verbosity_levels_filter.py`) -/

/-- Embedding of `isNameOrAncestorName` (`splatlog/verbosity/verbosity_levels_filter.py`
lines 13-41): the logger name starts with the ancestor name and either the
lengths match (exact equality) or the next character is a dot. -/
def isNameOrAncestorName (loggerName ancestorName : List Char) : Bool :=
  if !(List.isPrefixOf ancestorName loggerName) then false
  else
    decide (ancestorName.length = loggerName.length) ||
      decide (loggerName.get? ancestorName.length = some '.')

/-- The `_verbosityLevels` mapping of a `VerbosityLevelsFilter`: scope name to
the verbosity levels of that scope's `VerbosityLevelResolver` (a `dict`
iterated in insertion order, hence an association list). -/
abbrev VerbosityLevels := List (List Char × List VerbosityLevel)

/-- The state of a `VerbosityLevelsFilter` instance: `_verbosityLevels`,
which the `filter` method tests against `None`. -/
structure VerbosityLevelsFilter where
  verbosityLevels : Option VerbosityLevels

/-- The `for name, ranges in self._verbosityLevels.items():` loop of
`VerbosityLevelsFilter.filter` (lines 96-103): on the first scope matching
the record's logger name, pass when the scope resolves no level at the
current verbosity or the record's level reaches the resolved level; pass when
no scope matches. -/
def filterScan (m : VerbosityLevels) (r : LogRecord) (v : Verbosity) : Bool :=
  match m with
  | [] => true
  | (name, levels) :: rest =>
    if isNameOrAncestorName r.name name then
      match getLevel (computeVerbosityRanges levels) v with
      | none => true
      | some lvl => decide (r.levelno ≥ lvl)
    else filterScan rest r v

/-- Embedding of `VerbosityLevelsFilter.filter`
(`splatlog/verbosity/verbosity_levels_filter.py` lines 87-103); the current
process-wide verbosity (`self._getVerbosity()`) is passed explicitly. -/
def VerbosityLevelsFilter.filter (f : VerbosityLevelsFilter)
    (verbosity : Option Verbosity) (r : LogRecord) : Bool :=
  match f.verbosityLevels with
  | none => true
  | some m =>
    match verbosity with
    | none => true
    | some v => filterScan m r v

/-! ## SplatManager (`splatlog/splat_manager.py`)

The manager state the role-assignment claims read: the role registry
`_roles`, the member index `_loggersByRole` and the process-wide
`_verbosity`.  A logger node is embedded as its name, its `_role_name`
attribute and its `level`. -/

/-- The slice of a `SplatLogger` node that `SplatManager.assignRole`
reads and writes. -/
structure MLogger where
  name : List Char
  role_name : Option (List Char)
  level : LevelValue
deriving DecidableEq

/-- Manager state (`splatlog/splat_manager.py` lines 36-52). -/
structure SplatManager where
  roles : List (List Char × Role)
  loggersByRole : List (List Char × List (List Char))
  verbosity : Option Verbosity
deriving DecidableEq

/-- Model of `dict.get(name, None)` over an association list. -/
def alookup {β : Type} : List (List Char × β) → List Char → Option β
  | [], _ => none
  | (k, x) :: rest, key => if k = key then some x else alookup rest key

/-- Embedding of `SplatManager.getRole(name, None)` (`splatlog/splat_manager.py` lines
141-144 with an explicit default). -/
def getRole (m : SplatManager) (name : List Char) : Option Role :=
  alookup m.roles name

/-- Embedding of `SplatManager.getRoleLevel` (`splatlog/splat_manager.py` lines 173-184):
`None` when no verbosity is set or the role is unknown, else
`role.get_level(verbosity)`. -/
def getRoleLevel (m : SplatManager) (role_name : List Char) :
    Option LevelValue :=
  match m.verbosity with
  | none => none
  | some v =>
    match getRole m role_name with
    | none => none
    | some role => some (role.get_level (some v))

/-- Model of `self._loggersByRole[role_name].add(logger)` on a `defaultdict(set)`:
create the entry when absent, and add the logger to the member set when not
already present. -/
def addMember (lbr : List (List Char × List (List Char)))
    (role_name lname : List Char) : List (List Char × List (List Char)) :=
  match lbr with
  | [] => [(role_name, [lname])]
  | (k, names) :: rest =>
    if k = role_name then
      (k, if lname ∈ names then names else names ++ [lname]) :: rest
    else (k, names) :: addMember rest role_name lname

/-- The `AttributeError("Logger ... already assigned role ...")` raised by
`SplatManager.assignRole`. -/
inductive AssignRoleError
  | roleAlreadyAssigned
deriving DecidableEq

/-- Embedding of `SplatManager.assignRole` (`splatlog/splat_manager.py` lines 186-206).
Returning with the same role is a no-op; a different existing role raises;
otherwise the role name is recorded, the logger joins the member set, and
`if level := self.getRoleLevel(role_name):` sets the level only for a truthy
(non-`None`, non-zero) value.  The returned pair is the updated manager and
logger. -/
def assignRole (m : SplatManager) (lg : MLogger) (role_name : List Char) :
    Except AssignRoleError (SplatManager × MLogger) :=
  if lg.role_name = some role_name then .ok (m, lg)
  else if lg.role_name ≠ none then .error .roleAlreadyAssigned
  else
    match getRoleLevel
        { m with loggersByRole := addMember m.loggersByRole role_name lg.name }
        role_name with
    | some lvl =>
      if lvl ≠ 0 then
        .ok ({ m with
                loggersByRole := addMember m.loggersByRole role_name lg.name },
             { lg with role_name := some role_name, level := lvl })
      else
        .ok ({ m with
                loggersByRole := addMember m.loggersByRole role_name lg.name },
             { lg with role_name := some role_name })
    | none =>
      .ok ({ m with
              loggersByRole := addMember m.loggersByRole role_name lg.name },
           { lg with role_name := some role_name })

/-! ## Concrete instances used by counterexamples and witnesses -/

/-- A non-priority handler at level 50 (`CRITICAL`), no filters. -/
def c3Handler : Handler := { level := 50, isPriority := false, filters := [] }

/-- A last-resort handler at level 0, mirroring a permissive
`logging.lastResort` configuration. -/
def c3LastResort : Handler := { level := 0, isPriority := false, filters := [] }

/-- A single logger whose only handler is `c3Handler`. -/
def c3Chain : Chain := [{ level := 0, propagate := true, handlers := [c3Handler] }]

/-- A record at level 20 (`INFO`). -/
def c3Record : LogRecord := { name := [], levelno := 20 }

/-- Globals with a configured last resort and warnings enabled. -/
def c3Globals : DispatchGlobals :=
  { lastResort := some c3LastResort, raiseExceptions := true
    emittedNoHandlerWarning := false }

/-- A role whose verbosity table resolves verbosity 0 to `NOTSET` (0). -/
def c7Role : Role :=
  { name := "r".data, verbosity_levels := [(0, 0)], default_level := 30 }

/-- A manager with `c7Role` registered and verbosity 0 set. -/
def c7Manager : SplatManager :=
  { roles := [("r".data, c7Role)], loggersByRole := [], verbosity := some 0 }

/-- An unassigned logger at level 30 (`WARNING`). -/
def c7Logger : MLogger := { name := "x".data, role_name := none, level := 30 }

/-- A manager with the built-in app role registered and verbosity 0 set. -/
def c7wManager : SplatManager :=
  { roles := [("app".data, APP_ROLE)], loggersByRole := [], verbosity := some 0 }

/-- A logger already assigned to the app role. -/
def c7wLoggerA : MLogger :=
  { name := "a".data, role_name := some "app".data, level := 20 }

/-- A logger already assigned to a different role. -/
def c7wLoggerB : MLogger :=
  { name := "b".data, role_name := some "lib".data, level := 30 }

/-- An unassigned logger. -/
def c7wLoggerC : MLogger := { name := "c".data, role_name := none, level := 0 }

/-- A manager with an empty role registry and verbosity 2 set. -/
def c10Manager : SplatManager :=
  { roles := [], loggersByRole := [], verbosity := some 2 }

/-- An unassigned logger at level 7. -/
def c10Logger : MLogger := { name := "z".data, role_name := none, level := 7 }

/-! ## Helper lemmas -/

theorem rangeContains_iff {r : Nat × Nat} {v : Nat} :
    rangeContains r v = true ↔ r.1 ≤ v ∧ v < r.2 := by
  simp [rangeContains]

theorem rangesOf_nil : rangesOf ([] : List VerbosityLevel) = [] := rfl

theorem rangesOf_single (a : VerbosityLevel) : rangesOf [a] = [] := rfl

theorem rangesOf_cons_cons (a b : VerbosityLevel) (t : List VerbosityLevel) :
    rangesOf (a :: b :: t) = ((a.1, b.1), a.2) :: rangesOf (b :: t) := rfl

theorem getLevel_cons (rng : Nat × Nat) (lvl : LevelValue)
    (rest : List VerbosityRange) (v : Verbosity) :
    getLevel ((rng, lvl) :: rest) v =
      if rangeContains rng v then some lvl else getLevel rest v := rfl

/-- Scanning the ranges of a list all of whose verbosities lie strictly above
`v` finds nothing. -/
theorem getLevel_rangesOf_above (v : Verbosity) :
    ∀ s : List VerbosityLevel, (∀ q ∈ s, v < q.1) →
      getLevel (rangesOf s) v = none := by
  intro s
  induction s with
  | nil => intro _; rfl
  | cons a t ih =>
    intro habove
    match t with
    | [] => rfl
    | b :: t' =>
      rw [rangesOf_cons_cons, getLevel_cons]
      have ha : v < a.1 := habove a (List.mem_cons_self a _)
      have hnc : ¬(rangeContains (a.1, b.1) v = true) := by
        rw [rangeContains_iff]
        intro hc
        exact absurd hc.1 (Nat.not_le.mpr ha)
      rw [if_neg hnc]
      exact ih fun q hq => habove q (List.mem_cons_of_mem a hq)

/-- On a sorted list with pairwise-distinct verbosities containing an element
strictly above `v`, the range scan returns the level of the (unique) element
with the greatest verbosity at most `v`. -/
theorem getLevel_rangesOf_greatest (v : Verbosity) :
    ∀ (s : List VerbosityLevel) (p : VerbosityLevel),
      List.Sorted vlLE s →
      List.Pairwise (fun a b : VerbosityLevel => a.1 ≠ b.1) s →
      p ∈ s → p.1 ≤ v →
      (∀ q ∈ s, q.1 ≤ v → q.1 ≤ p.1) →
      (∃ q ∈ s, v < q.1) →
      getLevel (rangesOf s) v = some p.2 := by
  intro s
  induction s with
  | nil => intro p _ _ hp; exact absurd hp (List.not_mem_nil p)
  | cons a t ih =>
    intro p hsort hdist hp hpv hub hex
    cases t with
    | nil =>
      obtain ⟨q, hq, hqv⟩ := hex
      rw [List.mem_singleton] at hq hp
      subst hq
      subst hp
      exact absurd hpv (Nat.not_le.mpr hqv)
    | cons b t' =>
      rw [rangesOf_cons_cons, getLevel_cons]
      have hab : a.1 ≤ b.1 :=
        List.rel_of_sorted_cons hsort b (List.mem_cons_self b t')
      by_cases hin : rangeContains (a.1, b.1) v = true
      · rw [if_pos hin]
        rw [rangeContains_iff] at hin
        have hpa : p = a := by
          rcases List.mem_cons.mp hp with rfl | hpt
          · rfl
          · have hbp : b.1 ≤ p.1 := by
              rcases List.mem_cons.mp hpt with rfl | hpt'
              · exact Nat.le_refl _
              · exact List.rel_of_sorted_cons hsort.of_cons p hpt'
            have hvp : v < p.1 := Nat.lt_of_lt_of_le hin.2 hbp
            exact absurd hpv (Nat.not_le.mpr hvp)
        rw [hpa]
      · rw [if_neg hin]
        rw [rangeContains_iff] at hin
        have hav : a.1 ≤ v := by
          rcases List.mem_cons.mp hp with rfl | hpt
          · exact hpv
          · exact Nat.le_trans (List.rel_of_sorted_cons hsort p hpt) hpv
        have hbv : b.1 ≤ v := by
          by_contra hb
          exact hin ⟨hav, Nat.lt_of_not_le hb⟩
        have hpt : p ∈ b :: t' := by
          rcases List.mem_cons.mp hp with rfl | hpt
          · have h1 : b.1 ≤ p.1 :=
              hub b (List.mem_cons_of_mem p (List.mem_cons_self b t')) hbv
            have h2 : p.1 = b.1 := Nat.le_antisymm hab h1
            have h3 : p.1 ≠ b.1 :=
              (List.pairwise_cons.mp hdist).1 b (List.mem_cons_self b t')
            exact absurd h2 h3
          · exact hpt
        refine ih p hsort.of_cons hdist.of_cons hpt hpv
          (fun q hq hqv => hub q (List.mem_cons_of_mem a hq) hqv) ?_
        obtain ⟨q, hq, hqv⟩ := hex
        rcases List.mem_cons.mp hq with rfl | hqt
        · exact absurd hav (Nat.not_le.mpr hqv)
        · exact ⟨q, hqt, hqv⟩

/-! ## Claim theorems -/

/-- C4: for every `(verbosity, level)` list with pairwise-distinct
verbosities, `VerbosityLevelResolver.getLevel` returns, for every verbosity
`v` from the minimum declared verbosity up to (but excluding) `sys.maxsize`,
the level paired with the greatest declared verbosity that is `≤ v` — the
monotonic step function over consecutive half-open ranges in which the last
declared verbosity's level extends to infinity; the returned level is always
that of a declared pair, never the appended sentinel's `NOTSET`. -/
theorem getLevel_greatest_declared (levels : List VerbosityLevel)
    (v : Verbosity) (p : VerbosityLevel)
    (hb : ∀ q ∈ levels, q.1 < maxsize)
    (hdist : List.Pairwise (fun a b : VerbosityLevel => a.1 ≠ b.1) levels)
    (hv : v < maxsize)
    (hp : p ∈ levels) (hpv : p.1 ≤ v)
    (hgreatest : ∀ q ∈ levels, q.1 ≤ v → q.1 ≤ p.1) :
    getLevel (computeVerbosityRanges levels) v = some p.2 := by
  have hperm : List.Perm (sortVL (levels ++ [(maxsize, 0)]))
      (levels ++ [(maxsize, 0)]) :=
    List.perm_insertionSort vlLE _
  have hsort : List.Sorted vlLE (sortVL (levels ++ [(maxsize, 0)])) :=
    List.sorted_insertionSort vlLE _
  have hdist2 : List.Pairwise (fun a b : VerbosityLevel => a.1 ≠ b.1)
      (levels ++ [(maxsize, 0)]) := by
    rw [List.pairwise_append]
    refine ⟨hdist, by simp, ?_⟩
    intro q hq s hs
    rw [List.mem_singleton] at hs
    subst hs
    exact Nat.ne_of_lt (hb q hq)
  have hdist' :=
    (List.Perm.pairwise_iff (fun {_ _} h => Ne.symm h) hperm).mpr hdist2
  show getLevel (rangesOf (sortVL (levels ++ [(maxsize, 0)]))) v = some p.2
  refine getLevel_rangesOf_greatest v _ p hsort hdist'
    (hperm.mem_iff.mpr (List.mem_append_left _ hp)) hpv ?_ ?_
  · intro q hq hqv
    rcases List.mem_append.mp (hperm.mem_iff.mp hq) with hql | hqs
    · exact hgreatest q hql hqv
    · rw [List.mem_singleton] at hqs
      subst hqs
      exact absurd hqv (Nat.not_le.mpr hv)
  · exact ⟨(maxsize, 0),
      hperm.mem_iff.mpr (List.mem_append_right _ (List.mem_singleton_self _)),
      hv⟩

/-- Witness for C4: levels `[(0, 30), (2, 10)]`, verbosity `1`; the greatest
declared verbosity `≤ 1` is `0`, so the resolver yields `30`. -/
theorem getLevel_greatest_declared_witness :
    (∀ q ∈ [((0 : Verbosity), (30 : LevelValue)), (2, 10)], q.1 < maxsize) ∧
    getLevel (computeVerbosityRanges [(0, 30), (2, 10)]) 1 = some 30 :=
  ⟨by decide,
   getLevel_greatest_declared [(0, 30), (2, 10)] 1 (0, 30) (by decide)
     (by decide) (by decide) (by decide) (by decide) (by decide)⟩

/-- C8: `VerbosityLevelResolver.getLevel` returns `None` for every verbosity
strictly below the smallest declared verbosity, and a resolver built from an
empty verbosity-levels list returns `None` for every verbosity. -/
theorem getLevel_below_minimum :
    (∀ (levels : List VerbosityLevel) (v : Verbosity),
        v < maxsize → (∀ q ∈ levels, v < q.1) →
        getLevel (computeVerbosityRanges levels) v = none) ∧
    (∀ v : Verbosity, getLevel (computeVerbosityRanges []) v = none) := by
  constructor
  · intro levels v hv habove
    have hperm : List.Perm (sortVL (levels ++ [(maxsize, 0)]))
        (levels ++ [(maxsize, 0)]) :=
      List.perm_insertionSort vlLE _
    show getLevel (rangesOf (sortVL (levels ++ [(maxsize, 0)]))) v = none
    refine getLevel_rangesOf_above v _ ?_
    intro q hq
    rcases List.mem_append.mp (hperm.mem_iff.mp hq) with hql | hqs
    · exact habove q hql
    · rw [List.mem_singleton] at hqs
      subst hqs
      exact hv
  · intro _
    rfl

/-- Witness for C8: with levels `[(3, 20)]` the resolver yields `None` at
verbosity `1`, which is below the smallest declared verbosity `3`. -/
theorem getLevel_below_minimum_witness :
    (1 : Verbosity) < maxsize ∧
    getLevel (computeVerbosityRanges [((3 : Verbosity), (20 : LevelValue))]) 1 =
      none :=
  ⟨by decide,
   getLevel_below_minimum.1 [(3, 20)] 1 (by decide) (by decide)⟩

theorem getLast?_cons_ne_nil {α : Type} (a : α) {l : List α} (h : l ≠ []) :
    (a :: l).getLast? = l.getLast? := by
  cases l with
  | nil => exact absurd rfl h
  | cons b t => exact List.getLast?_cons_cons

/-- Filtering on an exact verbosity key commutes with `orderedInsert`: the
inserted element lands before the first element with key `≥` its own, hence
before every element with the same key. -/
theorem filter_orderedInsert (k : Verbosity) (x : VerbosityLevel) :
    ∀ l : List VerbosityLevel,
      (List.orderedInsert vlLE x l).filter (fun q => q.1 == k) =
        if x.1 == k then x :: l.filter (fun q => q.1 == k)
        else l.filter (fun q => q.1 == k) := by
  intro l
  induction l with
  | nil =>
    rw [List.orderedInsert]
    by_cases hak : (x.1 == k) = true
    · rw [if_pos hak, @List.filter_cons_of_pos VerbosityLevel
        (fun q => q.1 == k) x [] hak]
    · rw [if_neg hak, @List.filter_cons_of_neg VerbosityLevel
        (fun q => q.1 == k) x [] hak]
  | cons b t ih =>
    rw [List.orderedInsert]
    by_cases hxb : vlLE x b
    · rw [if_pos hxb]
      by_cases hak : (x.1 == k) = true
      · rw [if_pos hak, @List.filter_cons_of_pos VerbosityLevel
          (fun q => q.1 == k) x (b :: t) hak]
      · rw [if_neg hak, @List.filter_cons_of_neg VerbosityLevel
          (fun q => q.1 == k) x (b :: t) hak]
    · rw [if_neg hxb]
      by_cases hak : (x.1 == k) = true
      · have hxk : x.1 = k := by simpa using hak
        have hlt : b.1 < x.1 := Nat.lt_of_not_le hxb
        have hbk : ¬((b.1 == k) = true) := by
          simp only [beq_iff_eq]
          exact Nat.ne_of_lt (hxk ▸ hlt)
        rw [@List.filter_cons_of_neg VerbosityLevel (fun q => q.1 == k) b
          (List.orderedInsert vlLE x t) hbk, ih, if_pos hak, if_pos hak,
          @List.filter_cons_of_neg VerbosityLevel (fun q => q.1 == k) b t hbk]
      · by_cases hbk : (b.1 == k) = true
        · rw [@List.filter_cons_of_pos VerbosityLevel (fun q => q.1 == k) b
            (List.orderedInsert vlLE x t) hbk, ih, if_neg hak, if_neg hak,
            @List.filter_cons_of_pos VerbosityLevel (fun q => q.1 == k) b t hbk]
        · rw [@List.filter_cons_of_neg VerbosityLevel (fun q => q.1 == k) b
            (List.orderedInsert vlLE x t) hbk, ih, if_neg hak, if_neg hak,
            @List.filter_cons_of_neg VerbosityLevel (fun q => q.1 == k) b t hbk]

/-- Python's stable sort keeps entries with a given verbosity in input
order: filtering by an exact verbosity commutes with the sort. -/
theorem filter_sortVL (k : Verbosity) :
    ∀ l : List VerbosityLevel,
      (sortVL l).filter (fun q => q.1 == k) = l.filter (fun q => q.1 == k) := by
  intro l
  induction l with
  | nil => rfl
  | cons x t ih =>
    have hstep : sortVL (x :: t) =
        List.orderedInsert vlLE x (sortVL t) := rfl
    rw [hstep, filter_orderedInsert k x (sortVL t)]
    by_cases hak : (x.1 == k) = true
    · rw [if_pos hak, ih,
        @List.filter_cons_of_pos VerbosityLevel (fun q => q.1 == k) x t hak]
    · rw [if_neg hak, ih,
        @List.filter_cons_of_neg VerbosityLevel (fun q => q.1 == k) x t hak]

/-- On a sorted list containing an element with verbosity exactly `v` and an
element strictly above `v`, the range scan returns the level of the *last*
element with verbosity `v`: earlier equal-verbosity entries compile to empty
ranges. -/
theorem getLevel_rangesOf_last_dup (v : Verbosity) :
    ∀ s : List VerbosityLevel,
      List.Sorted vlLE s →
      s.filter (fun q => q.1 == v) ≠ [] →
      (∃ q ∈ s, v < q.1) →
      getLevel (rangesOf s) v =
        ((s.filter (fun q => q.1 == v)).getLast?).map Prod.snd := by
  intro s
  induction s with
  | nil => intro _ hne _; exact absurd rfl hne
  | cons a t ih =>
    intro hsort hne hex
    cases t with
    | nil =>
      obtain ⟨q, hq, hqv⟩ := hex
      rw [List.mem_singleton] at hq
      rw [hq] at hqv
      by_cases hak : (a.1 == v) = true
      · have ha' : a.1 = v := by simpa using hak
        exact absurd ha' (Nat.ne_of_gt hqv)
      · exfalso
        apply hne
        rw [@List.filter_cons_of_neg VerbosityLevel (fun q => q.1 == v) a []
          hak]
        rfl
    | cons b t' =>
      rw [rangesOf_cons_cons, getLevel_cons]
      have hab : a.1 ≤ b.1 :=
        List.rel_of_sorted_cons hsort b (List.mem_cons_self b t')
      by_cases hin : rangeContains (a.1, b.1) v = true
      · rw [if_pos hin]
        rw [rangeContains_iff] at hin
        have htfil : (b :: t').filter (fun q => q.1 == v) = [] := by
          rw [List.filter_eq_nil_iff]
          intro q hq
          have hbq : b.1 ≤ q.1 := by
            rcases List.mem_cons.mp hq with rfl | hq'
            · exact Nat.le_refl _
            · exact List.rel_of_sorted_cons hsort.of_cons q hq'
          have hvq : v < q.1 := Nat.lt_of_lt_of_le hin.2 hbq
          simp only [beq_iff_eq]
          exact Nat.ne_of_gt hvq
        by_cases hak : (a.1 == v) = true
        · rw [@List.filter_cons_of_pos VerbosityLevel (fun q => q.1 == v) a
            (b :: t') hak, htfil]
          rfl
        · exfalso
          apply hne
          rw [@List.filter_cons_of_neg VerbosityLevel (fun q => q.1 == v) a
            (b :: t') hak, htfil]
      · rw [if_neg hin]
        rw [rangeContains_iff] at hin
        have hav : a.1 ≤ v := by
          by_contra ha
          apply hne
          rw [List.filter_eq_nil_iff]
          intro q hq
          have haq : a.1 ≤ q.1 := by
            rcases List.mem_cons.mp hq with rfl | hq'
            · exact Nat.le_refl _
            · exact List.rel_of_sorted_cons hsort q hq'
          have hvq : v < q.1 :=
            Nat.lt_of_lt_of_le (Nat.lt_of_not_le ha) haq
          simp only [beq_iff_eq]
          exact Nat.ne_of_gt hvq
        have hbv : b.1 ≤ v := by
          by_contra hb
          exact hin ⟨hav, Nat.lt_of_not_le hb⟩
        have htne : (b :: t').filter (fun q => q.1 == v) ≠ [] := by
          by_cases hak : (a.1 == v) = true
          · have ha' : a.1 = v := by simpa using hak
            have hb' : b.1 = v := Nat.le_antisymm hbv (ha' ▸ hab)
            intro hc
            rw [List.filter_eq_nil_iff] at hc
            have hcb := hc b (List.mem_cons_self b t')
            simp only [beq_iff_eq] at hcb
            exact hcb hb'
          · intro hc
            apply hne
            rw [@List.filter_cons_of_neg VerbosityLevel (fun q => q.1 == v) a
              (b :: t') hak, hc]
        have hexr : ∃ q ∈ b :: t', v < q.1 := by
          obtain ⟨q, hq, hqv⟩ := hex
          rcases List.mem_cons.mp hq with rfl | hq'
          · exact absurd hav (Nat.not_le.mpr hqv)
          · exact ⟨q, hq', hqv⟩
        rw [ih hsort.of_cons htne hexr]
        by_cases hak : (a.1 == v) = true
        · rw [@List.filter_cons_of_pos VerbosityLevel (fun q => q.1 == v) a
            (b :: t') hak, getLast?_cons_ne_nil a htne]
        · rw [@List.filter_cons_of_neg VerbosityLevel (fun q => q.1 == v) a
            (b :: t') hak]

/-- C9: for every verbosity-levels list containing two or more pairs with the
same verbosity `v`, `VerbosityLevelResolver.getLevel v` returns the level of
the duplicate pair that occurs last in the input list: the stable ascending
sort keeps equal verbosities in input order, each earlier duplicate compiles
to an empty half-open range, and only the last duplicate's range is
non-empty. -/
theorem getLevel_duplicate_last_wins (levels : List VerbosityLevel)
    (v : Verbosity)
    (hb : ∀ q ∈ levels, q.1 < maxsize)
    (hdup : 2 ≤ (levels.filter (fun q => q.1 == v)).length) :
    getLevel (computeVerbosityRanges levels) v =
      ((levels.filter (fun q => q.1 == v)).getLast?).map Prod.snd := by
  have hnefil : levels.filter (fun q => q.1 == v) ≠ [] := by
    intro hc
    rw [hc] at hdup
    exact absurd hdup (by decide)
  obtain ⟨q0, hq0⟩ : ∃ q, q ∈ levels.filter (fun q => q.1 == v) := by
    cases hfil : levels.filter (fun q => q.1 == v) with
    | nil => exact absurd hfil hnefil
    | cons x xs => exact ⟨x, hfil ▸ List.mem_cons_self x xs⟩
  have hq0l : q0 ∈ levels := (List.mem_filter.mp hq0).1
  have hq0v : q0.1 = v := by
    have h2 := (List.mem_filter.mp hq0).2
    simpa using h2
  have hv : v < maxsize := by
    rw [← hq0v]
    exact hb q0 hq0l
  have hsent : ((maxsize, (0 : LevelValue)) : VerbosityLevel).1 ≠ v :=
    Nat.ne_of_gt hv
  have happ : (levels ++ [((maxsize, 0) : VerbosityLevel)]).filter
      (fun q => q.1 == v) = levels.filter (fun q => q.1 == v) := by
    rw [List.filter_append]
    have hone : ([((maxsize, 0) : VerbosityLevel)]).filter
        (fun q => q.1 == v) = [] := by
      rw [@List.filter_cons_of_neg VerbosityLevel (fun q => q.1 == v)
        (maxsize, 0) [] (by simpa using hsent)]
      rfl
    rw [hone, List.append_nil]
  have hstab : (sortVL (levels ++ [(maxsize, 0)])).filter
      (fun q => q.1 == v) = levels.filter (fun q => q.1 == v) := by
    rw [filter_sortVL, happ]
  have hsort : List.Sorted vlLE (sortVL (levels ++ [(maxsize, 0)])) :=
    List.sorted_insertionSort vlLE _
  have hperm :=
    List.perm_insertionSort vlLE (levels ++ [((maxsize, 0) : VerbosityLevel)])
  have hex : ∃ q ∈ sortVL (levels ++ [(maxsize, 0)]), v < q.1 :=
    ⟨(maxsize, 0),
     hperm.mem_iff.mpr (List.mem_append_right _ (List.mem_singleton_self _)),
     hv⟩
  have hne2 : (sortVL (levels ++ [(maxsize, 0)])).filter
      (fun q => q.1 == v) ≠ [] := by
    rw [hstab]
    exact hnefil
  show getLevel (rangesOf (sortVL (levels ++ [(maxsize, 0)]))) v = _
  rw [getLevel_rangesOf_last_dup v _ hsort hne2 hex, hstab]

/-- Witness for C9: levels `[(1, 50), (1, 20)]` share verbosity `1`; the
resolver yields the level of the last duplicate, `20`. -/
theorem getLevel_duplicate_last_wins_witness :
    2 ≤ (([((1 : Verbosity), (50 : LevelValue)), (1, 20)]).filter
        (fun q => q.1 == 1)).length ∧
    getLevel (computeVerbosityRanges [((1 : Verbosity), (50 : LevelValue)),
        (1, 20)]) 1 =
      ((([((1 : Verbosity), (50 : LevelValue)), (1, 20)]).filter
          (fun q => q.1 == 1)).getLast?).map Prod.snd :=
  ⟨by decide,
   getLevel_duplicate_last_wins [(1, 50), (1, 20)] 1 (by decide) (by decide)⟩

theorem listMin_eq_none {l : List LevelValue} : listMin l = none ↔ l = [] := by
  cases l with
  | nil => simp [listMin]
  | cons x xs => simp [listMin]

theorem listMin_mem : ∀ {l : List LevelValue} {m : LevelValue},
    listMin l = some m → m ∈ l := by
  intro l
  induction l with
  | nil => intro m h; exact absurd h (by simp [listMin])
  | cons x xs ih =>
    intro m h
    rw [listMin] at h
    cases hxs : listMin xs with
    | none =>
      rw [hxs] at h
      have hm : m = x := by simpa using h.symm
      rw [hm]
      exact List.mem_cons_self x xs
    | some m' =>
      rw [hxs] at h
      have hm : m = min x m' := by simpa using h.symm
      rcases min_choice x m' with hc | hc
      · rw [hm, hc]
        exact List.mem_cons_self x xs
      · rw [hm, hc]
        exact List.mem_cons_of_mem x (ih hxs)

theorem listMin_le : ∀ {l : List LevelValue} {m : LevelValue},
    listMin l = some m → ∀ y ∈ l, m ≤ y := by
  intro l
  induction l with
  | nil => intro m _ y hy; exact absurd hy (List.not_mem_nil y)
  | cons x xs ih =>
    intro m h y hy
    rw [listMin] at h
    cases hxs : listMin xs with
    | none =>
      rw [hxs] at h
      have hm : m = x := by simpa using h.symm
      have hxs' : xs = [] := listMin_eq_none.mp hxs
      rcases List.mem_cons.mp hy with rfl | hy'
      · exact hm.le
      · rw [hxs'] at hy'
        exact absurd hy' (List.not_mem_nil y)
    | some m' =>
      rw [hxs] at h
      have hm : m = min x m' := by simpa using h.symm
      rcases List.mem_cons.mp hy with rfl | hy'
      · exact hm ▸ min_le_left y m'
      · exact le_trans (hm ▸ min_le_right x m') (ih hxs y hy')

/-- C1: for every `SplatLogger`, `getEffectiveLevel()` equals
`min(logger_level, priority_floor)` when both are non-zero and
`max(logger_level, priority_floor)` otherwise, where `logger_level` is the
standard hierarchical effective level and `priority_floor` is the minimum
level over all `PriorityHandler` instances with non-`NOTSET` level reachable
through `iterHandlers` (the logger itself plus ancestors walked while
`propagate` holds), with `priority_floor = NOTSET` when no such handler
exists. -/
theorem getEffectiveLevel_priority_floor (c : Chain) :
    ∃ P : LevelValue,
      ((priorityLevels c = [] ∧ P = 0) ∨
        (P ∈ priorityLevels c ∧ ∀ l ∈ priorityLevels c, P ≤ l)) ∧
      getEffectiveLevel c =
        (if stdGetEffectiveLevel c ≠ 0 ∧ P ≠ 0 then
          min (stdGetEffectiveLevel c) P
        else max (stdGetEffectiveLevel c) P) := by
  refine ⟨getPriorityHandlerLevel c, ?_, rfl⟩
  cases h : listMin (priorityLevels c) with
  | none =>
    refine Or.inl ⟨listMin_eq_none.mp h, ?_⟩
    rw [getPriorityHandlerLevel, h]
    rfl
  | some m =>
    have hP : getPriorityHandlerLevel c = m := by
      rw [getPriorityHandlerLevel, h]
      rfl
    rw [hP]
    exact Or.inr ⟨listMin_mem h, listMin_le h⟩

/-- C2: `getEffectiveHandlerLevel(handler)` is the handler's own level for a
`PriorityHandler` and otherwise `max` of the logger's standard effective
level (excluding priority influence) and the handler's level; and
`callHandlers` delivers a record to a handler (its `emit` runs) iff the
handler is reachable in the propagation chain, `record.levelno` reaches that
per-handler effective level, and the handler's attached filters (which may
include a `VerbosityLevelsFilter`) all pass. -/
theorem callHandlers_delivery_iff (c : Chain) (r : LogRecord)
    (g : DispatchGlobals) (h : Handler) :
    getEffectiveHandlerLevel c h =
      (if h.isPriority then h.level
       else max (stdGetEffectiveLevel c) h.level) ∧
    (h ∈ (callHandlers c r g).delivered ↔
      h ∈ iterHandlers c ∧ r.levelno ≥ getEffectiveHandlerLevel c h ∧
        filtersPass h r = true) := by
  refine ⟨rfl, ?_⟩
  have hd : (callHandlers c r g).delivered =
      (iterHandlers c).filter
        (fun h => decide (r.levelno ≥ getEffectiveHandlerLevel c h) &&
          filtersPass h r) := rfl
  rw [hd, List.mem_filter]
  constructor
  · rintro ⟨hmem, hp⟩
    simp only [Bool.and_eq_true, decide_eq_true_eq] at hp
    exact ⟨hmem, hp.1, hp.2⟩
  · rintro ⟨hmem, hge, hf⟩
    refine ⟨hmem, ?_⟩
    simp only [Bool.and_eq_true, decide_eq_true_eq]
    exact ⟨hge, hf⟩

/-- C3 counterexample: the chain contains one handler (at level 50) which
blocks the record (level 20), so zero sinks receive it; a last-resort handler
is configured with a met threshold, yet the code performs no fallback because
its condition is `found == 0` — the number of handlers in the chain — not the
number of receivers. -/
theorem callHandlers_fallback_counterexample :
    (callHandlers c3Chain c3Record c3Globals).delivered = [] ∧
    c3Globals.lastResort = some c3LastResort ∧
    c3Record.levelno ≥ c3LastResort.level ∧
    (callHandlers c3Chain c3Record c3Globals).lastResortDelivered = false ∧
    (callHandlers c3Chain c3Record c3Globals).warningWritten = false :=
  ⟨rfl, rfl, by decide, rfl, rfl⟩

/-- C3 (amended): the fallback is keyed on the chain containing zero sinks,
not on zero sinks receiving the record.  When the chain is handler-free, the
last resort receives the record iff it is configured and the record meets its
threshold; with no last resort configured, a single warning is written iff
warnings are enabled and none was emitted before, setting the manager flag;
when the chain has at least one handler, no fallback or warning happens even
if no handler receives the record. -/
theorem callHandlers_fallback_characterization (c : Chain) (r : LogRecord)
    (g : DispatchGlobals) :
    ((callHandlers c r g).lastResortDelivered =
      ((iterHandlers c).length == 0 &&
        g.lastResort.elim false (fun lr => decide (r.levelno ≥ lr.level)))) ∧
    ((callHandlers c r g).warningWritten =
      ((iterHandlers c).length == 0 && g.lastResort.isNone &&
        (g.raiseExceptions && !g.emittedNoHandlerWarning))) ∧
    ((callHandlers c r g).emittedNoHandlerWarning =
      (g.emittedNoHandlerWarning ||
        ((iterHandlers c).length == 0 && g.lastResort.isNone &&
          g.raiseExceptions))) := by
  have h1 : (callHandlers c r g).lastResortDelivered =
      (noHandlerFallback (iterHandlers c).length r g).1 := rfl
  have h2 : (callHandlers c r g).warningWritten =
      (noHandlerFallback (iterHandlers c).length r g).2.1 := rfl
  have h3 : (callHandlers c r g).emittedNoHandlerWarning =
      (noHandlerFallback (iterHandlers c).length r g).2.2 := rfl
  rw [h1, h2, h3, noHandlerFallback]
  by_cases hf : (iterHandlers c).length = 0
  · rw [if_pos hf, hf]
    cases g.lastResort with
    | none =>
      cases hre : g.raiseExceptions with
      | false => cases hw : g.emittedNoHandlerWarning <;> simp [hre, hw]
      | true => cases hw : g.emittedNoHandlerWarning <;> simp [hre, hw]
    | some lr => simp
  · rw [if_neg hf]
    have hne : ((iterHandlers c).length == 0) = false := by
      simpa using hf
    simp [hne]

theorem filterScan_cons (name : List Char) (levels : List VerbosityLevel)
    (rest : VerbosityLevels) (r : LogRecord) (v : Verbosity) :
    filterScan ((name, levels) :: rest) r v =
      if isNameOrAncestorName r.name name then
        match getLevel (computeVerbosityRanges levels) v with
        | none => true
        | some lvl => decide (r.levelno ≥ lvl)
      else filterScan rest r v := rfl

/-- The scope loop takes the decision of the first matching scope and passes
when none matches. -/
theorem filterScan_eq_find (r : LogRecord) (v : Verbosity) :
    ∀ m : VerbosityLevels,
      filterScan m r v =
        (match m.find? (fun e => isNameOrAncestorName r.name e.1) with
         | none => true
         | some e =>
           match getLevel (computeVerbosityRanges e.2) v with
           | none => true
           | some lvl => decide (r.levelno ≥ lvl)) := by
  intro m
  induction m with
  | nil => rfl
  | cons e rest ih =>
    obtain ⟨name, levels⟩ := e
    by_cases hm : isNameOrAncestorName r.name name = true
    · rw [filterScan_cons, if_pos hm,
        @List.find?_cons_of_pos (List Char × List VerbosityLevel)
          (fun e => isNameOrAncestorName r.name e.1) (name, levels) rest hm]
    · rw [filterScan_cons, if_neg hm,
        @List.find?_cons_of_neg (List Char × List VerbosityLevel)
          (fun e => isNameOrAncestorName r.name e.1) (name, levels) rest hm]
      exact ih

/-- C5: `VerbosityLevelsFilter.filter` passes every record when the
verbosity-levels map is absent or empty or the current verbosity is unset;
otherwise the first scope whose name equals the record's logger name, or
which the logger name extends past a dot, decides: pass iff the scope's
resolver yields no level at the current verbosity or `record.levelno` reaches
the resolved level; a record matching no scope passes.  With the scope map
`pkg := [(0, WARNING), (2, DEBUG)]` at verbosity 1, a record from logger
`pkg.sub` at `INFO` (20) is blocked since `20 < 30`. -/
theorem verbosityLevelsFilter_spec (mp : VerbosityLevels) (v : Verbosity)
    (r : LogRecord) :
    VerbosityLevelsFilter.filter ⟨none⟩ (some v) r = true ∧
    VerbosityLevelsFilter.filter ⟨some mp⟩ none r = true ∧
    VerbosityLevelsFilter.filter ⟨some []⟩ (some v) r = true ∧
    (VerbosityLevelsFilter.filter ⟨some mp⟩ (some v) r =
      (match mp.find? (fun e => isNameOrAncestorName r.name e.1) with
       | none => true
       | some e =>
         match getLevel (computeVerbosityRanges e.2) v with
         | none => true
         | some lvl => decide (r.levelno ≥ lvl))) ∧
    VerbosityLevelsFilter.filter ⟨some [("pkg".data, [(0, 30), (2, 10)])]⟩
      (some 1) { name := "pkg.sub".data, levelno := 20 } = false :=
  ⟨rfl, rfl, rfl, filterScan_eq_find r v mp, by decide⟩

theorem roleScan_eq_getD (v : Verbosity) (d : LevelValue) :
    ∀ ranges : List VerbosityRange,
      roleScan ranges v d = (getLevel ranges v).getD d := by
  intro ranges
  induction ranges with
  | nil => rfl
  | cons e rest ih =>
    obtain ⟨rng, lvl⟩ := e
    rw [roleScan, getLevel]
    by_cases hc : rangeContains rng v = true
    · rw [if_pos hc, if_pos hc]
      rfl
    · rw [if_neg hc, if_neg hc]
      exact ih

/-- C6: `Role.get_level(None)` is the role's default level, `get_level(v)` is
the compiled verbosity-range lookup with the default level as fallback when
no range contains `v`, and the built-in app role (0 maps to INFO, 1 to DEBUG,
default WARNING) satisfies `get_level(None) = 30`, `get_level(0) = 20`,
`get_level(1) = 10` and `get_level(5) = 10`. -/
theorem role_get_level_spec (role : Role) (v : Verbosity) :
    Role.get_level role none = role.default_level ∧
    Role.get_level role (some v) =
      (getLevel role.verbosity_ranges v).getD role.default_level ∧
    APP_ROLE.get_level none = 30 ∧
    APP_ROLE.get_level (some 0) = 20 ∧
    APP_ROLE.get_level (some 1) = 10 ∧
    APP_ROLE.get_level (some 5) = 10 :=
  ⟨rfl, roleScan_eq_getD v role.default_level role.verbosity_ranges,
   by decide, by decide, by decide, by decide⟩

theorem getRoleLevel_update_loggersByRole (m : SplatManager)
    (lbr : List (List Char × List (List Char))) (rn : List Char) :
    getRoleLevel { m with loggersByRole := lbr } rn = getRoleLevel m rn := rfl

/-- C7 counterexample: the registered role resolves verbosity 0 to level 0
(`NOTSET`); assigning succeeds but the logger's level stays 30 instead of
being set to `role.get_level(verbosity) = 0`, because the code's
`if level := self.getRoleLevel(role_name):` skips falsy (zero) levels. -/
theorem assignRole_level_counterexample :
    c7Manager.verbosity = some 0 ∧
    getRole c7Manager "r".data = some c7Role ∧
    Role.get_level c7Role (some 0) = 0 ∧
    assignRole c7Manager c7Logger "r".data =
      .ok ({ c7Manager with loggersByRole := [("r".data, ["x".data])] },
           { c7Logger with role_name := some "r".data }) ∧
    ({ c7Logger with role_name := some "r".data } : MLogger).level = 30 ∧
    (30 : LevelValue) ≠ 0 :=
  ⟨rfl, rfl, by decide, rfl, rfl, by decide⟩

/-- C7 (amended): re-assigning the same role is a no-op success returning the
unchanged manager and logger; assigning a logger that already holds a
different role raises without mutating anything; on success the logger joins
the role's member set and its level is set to `role.get_level(verbosity)`
only when a verbosity is set, the role is registered and that level is
truthy (non-zero) — otherwise the level is left unchanged. -/
theorem assignRole_characterization (m : SplatManager) (lg : MLogger)
    (rn : List Char) :
    (lg.role_name = some rn → assignRole m lg rn = .ok (m, lg)) ∧
    (∀ other, lg.role_name = some other → other ≠ rn →
      assignRole m lg rn = .error .roleAlreadyAssigned) ∧
    (lg.role_name = none →
      assignRole m lg rn = .ok
        ({ m with loggersByRole := addMember m.loggersByRole rn lg.name },
         { lg with
            role_name := some rn
            level := match getRoleLevel m rn with
                     | some lvl => if lvl ≠ 0 then lvl else lg.level
                     | none => lg.level })) := by
  refine ⟨?_, ?_, ?_⟩
  · intro h
    rw [assignRole, if_pos h]
  · intro other h hne
    have h1 : ¬(lg.role_name = some rn) := by
      rw [h]
      simp [hne]
    have h2 : lg.role_name ≠ none := by
      rw [h]
      simp
    rw [assignRole, if_neg h1, if_pos h2]
  · intro h
    have h1 : ¬(lg.role_name = some rn) := by
      rw [h]
      simp
    have h2 : ¬(lg.role_name ≠ none) := by
      rw [h]
      simp
    rw [assignRole, if_neg h1, if_neg h2, getRoleLevel_update_loggersByRole]
    cases hrl : getRoleLevel m rn with
    | none => rfl
    | some lvl =>
      by_cases hz : lvl ≠ 0
      · simp [hz]
      · have hz0 : lvl = 0 := not_not.mp hz
        subst hz0
        rfl

/-- Witness for C7 (amended): all three branches at concrete inputs — no-op
re-assignment, conflicting assignment, and a fresh assignment whose level is
set from the app role at verbosity 0. -/
theorem assignRole_characterization_witness :
    assignRole c7wManager c7wLoggerA "app".data = .ok (c7wManager, c7wLoggerA) ∧
    assignRole c7wManager c7wLoggerB "app".data = .error .roleAlreadyAssigned ∧
    assignRole c7wManager c7wLoggerC "app".data = .ok
      ({ c7wManager with
          loggersByRole :=
            addMember c7wManager.loggersByRole "app".data c7wLoggerC.name },
       { c7wLoggerC with
          role_name := some "app".data
          level := match getRoleLevel c7wManager "app".data with
                   | some lvl => if lvl ≠ 0 then lvl else c7wLoggerC.level
                   | none => c7wLoggerC.level }) :=
  ⟨(assignRole_characterization c7wManager c7wLoggerA ("app".data)).1 rfl,
   (assignRole_characterization c7wManager c7wLoggerB ("app".data)).2.1
     ("lib".data) rfl (by decide),
   (assignRole_characterization c7wManager c7wLoggerC ("app".data)).2.2 rfl⟩

/-- C10: `assignRole` never validates that the role name is registered: with
an unknown role name and an unassigned logger the call succeeds, records the
logger as a member under that name, and leaves the logger's level unchanged;
`getRoleLevel` yields `None` for unknown roles and whenever no verbosity is
set; and the only failing condition is a logger already holding a different
role name. -/
theorem assignRole_no_role_validation (m : SplatManager) (lg : MLogger)
    (rn : List Char) :
    (getRole m rn = none → getRoleLevel m rn = none) ∧
    (m.verbosity = none → getRoleLevel m rn = none) ∧
    (getRole m rn = none → lg.role_name = none →
      assignRole m lg rn = .ok
        ({ m with loggersByRole := addMember m.loggersByRole rn lg.name },
         { lg with role_name := some rn })) ∧
    (∀ e, assignRole m lg rn = .error e →
      lg.role_name ≠ none ∧ lg.role_name ≠ some rn) ∧
    (lg.role_name ≠ none → lg.role_name ≠ some rn →
      assignRole m lg rn = .error .roleAlreadyAssigned) := by
  have hlevel : getRole m rn = none → getRoleLevel m rn = none := by
    intro h
    rw [getRoleLevel]
    cases m.verbosity with
    | none => rfl
    | some v =>
      rw [h]
  refine ⟨hlevel, ?_, ?_, ?_, ?_⟩
  · intro h
    rw [getRoleLevel, h]
  · intro hrole hlg
    have h1 : ¬(lg.role_name = some rn) := by
      rw [hlg]
      simp
    have h2 : ¬(lg.role_name ≠ none) := by
      rw [hlg]
      simp
    rw [assignRole, if_neg h1, if_neg h2,
      getRoleLevel_update_loggersByRole, hlevel hrole]
  · intro e he
    cases hr : lg.role_name with
    | none =>
      exfalso
      have h1 : ¬(lg.role_name = some rn) := by
        rw [hr]
        simp
      have h2 : ¬(lg.role_name ≠ none) := by
        rw [hr]
        simp
      rw [assignRole, if_neg h1, if_neg h2,
        getRoleLevel_update_loggersByRole] at he
      cases hrl : getRoleLevel m rn with
      | none =>
        rw [hrl] at he
        exact Except.noConfusion he
      | some lvl =>
        rw [hrl] at he
        by_cases hz : lvl ≠ 0
        · simp [hz] at he
        · have hz0 : lvl = 0 := not_not.mp hz
          subst hz0
          exact Except.noConfusion he
    | some other =>
      by_cases ho : other = rn
      · exfalso
        subst ho
        rw [assignRole, if_pos hr] at he
        exact Except.noConfusion he
      · constructor
        · simp
        · simp [ho]
  · intro h1 h2
    rw [assignRole, if_neg h2, if_pos h1]

/-- Witness for C10: an unknown role name `ghost` with verbosity 2 set — the
assignment succeeds, the member is recorded, and the level is untouched. -/
theorem assignRole_no_role_validation_witness :
    getRole c10Manager "ghost".data = none ∧
    getRoleLevel c10Manager "ghost".data = none ∧
    assignRole c10Manager c10Logger "ghost".data = .ok
      ({ c10Manager with
          loggersByRole :=
            addMember c10Manager.loggersByRole "ghost".data c10Logger.name },
       { c10Logger with role_name := some "ghost".data }) :=
  ⟨rfl,
   (assignRole_no_role_validation c10Manager c10Logger ("ghost".data)).1 rfl,
   (assignRole_no_role_validation c10Manager c10Logger ("ghost".data)).2.2.1
     rfl rfl⟩


end Splatlog
